import Mathlib

/-!
Verification development for the Ember-FormController repository
(src/form-controller.js): a shallow embedding of the formatter and
validator registries, the schema flattener, and the form engine's
validation pass, together with theorems settling the specified
behaviour.
-/

/-! ### JavaScript values

The engine manipulates untyped JavaScript values: strings, numbers,
booleans, `null` and `undefined`.  Floating point numbers are not needed
by any behaviour under scrutiny, so numbers are carried as integers. -/

inductive JSVal where
  | str : String → JSVal
  | num : Int → JSVal
  | bool : Bool → JSVal
  | null : JSVal
  | undefined : JSVal
deriving DecidableEq, Repr

/-- JavaScript truthiness of a value (`!value` is its negation). -/
def truthy : JSVal → Bool
  | .str s => !(s = "")
  | .num n => !(n = 0)
  | .bool b => b
  | .null => false
  | .undefined => false

/-- JavaScript string coercion (`value + ''`). -/
def jsToString : JSVal → String
  | .str s => s
  | .num n => toString n
  | .bool b => if b then "true" else "false"
  | .null => "null"
  | .undefined => "undefined"

/-! ### Ember.String.classify

Registry keys are canonicalized with `name.classify()`.  Ember's
`classify` splits on `.`, camelizes each part (a run of `-`, `_`, `.` or
space swallowed, the following character upper-cased, then the first
character lower-cased) and capitalizes the first character. -/

def isSepChar (c : Char) : Bool :=
  c = '-' || c = '_' || c = '.' || c = ' '

/-- Character-level pass of Ember camelize: drop separator runs and
upper-case the character that follows one. -/
def camelizeGo : Bool → List Char → List Char
  | _, [] => []
  | up, c :: rest =>
    if isSepChar c then camelizeGo true rest
    else (if up then c.toUpper else c) :: camelizeGo false rest

/-- Lower-case a leading ASCII capital (camelize's final `^([A-Z])` pass). -/
def decapitalizeStr (s : String) : String :=
  match s.data with
  | [] => ""
  | c :: rest => String.mk ((if c.isUpper then c.toLower else c) :: rest)

def camelizeStr (s : String) : String :=
  decapitalizeStr (String.mk (camelizeGo false s.data))

/-- Upper-case the first character (`charAt(0).toUpperCase() + substr(1)`). -/
def capitalizeStr (s : String) : String :=
  match s.data with
  | [] => ""
  | c :: rest => String.mk (c.toUpper :: rest)

/-- The split on `.` performed by classify, on the character list. -/
def splitOnDot : List Char → List (List Char)
  | [] => [[]]
  | c :: rest =>
    if c = '.' then [] :: splitOnDot rest
    else
      match splitOnDot rest with
      | [] => [[c]]
      | w :: ws => (c :: w) :: ws

/-- Ember.String.classify, the canonical form of a registry name. -/
def classify (s : String) : String :=
  String.intercalate "."
    ((splitOnDot s.data).map fun part => capitalizeStr (camelizeStr (String.mk part)))

/-! ### Registries as association lists

`Ember.Formatters` and `Ember.Validators` are plain objects used as
name-to-entry tables; property assignment either overwrites the value at
an existing key or appends a new one, and property lookup returns the
bound value when present. -/

/-- Property read on a name-keyed table (`obj[name]`). -/
def getEntry {α : Type} : List (String × α) → String → Option α
  | [], _ => none
  | (k, v) :: rest, name => if name = k then some v else getEntry rest name

/-- Property assignment on a name-keyed table (`obj[name] = v`). -/
def setEntry {α : Type} : List (String × α) → String → α → List (String × α)
  | [], name, v => [(name, v)]
  | (k, w) :: rest, name, v =>
    if name = k then (k, v) :: rest else (k, w) :: setEntry rest name v

/-! ### Validators (src/form-controller.js lines 133-224) -/

/-- StringValidator: `'string' === typeof value`. -/
def StringValidator (value : JSVal) : Bool :=
  match value with
  | .str _ => true
  | _ => false

/-- RegExpValidator: first the StringValidator check, then `regex.test`;
the concrete regex is supplied as a string predicate. -/
def RegExpValidatorValidate (test : String → Bool) (value : JSVal) : Bool :=
  match value with
  | .str s => test s
  | _ => false

/-- Character class `[0-9A-F]` of the Hexadecimal regex. -/
def isUpperHexDigit (c : Char) : Bool :=
  ('0' ≤ c && c ≤ '9') || ('A' ≤ c && c ≤ 'F')

/-- The test of `^[0-9A-F]+$` on a string. -/
def hexadecimalRegexTest (s : String) : Bool :=
  !(s.data = []) && s.data.all isUpperHexDigit

/-- Character class `[a-f0-9]` of the HexColor regex. -/
def isLowerHexDigit (c : Char) : Bool :=
  ('0' ≤ c && c ≤ '9') || ('a' ≤ c && c ≤ 'f')

/-- The test of the HexColor regex `^#([a-f0-9]{6}|[a-f0-9]{3})$`. -/
def hexColorRegexTest (s : String) : Bool :=
  match s.data with
  | '#' :: rest => (rest.length = 6 || rest.length = 3) && rest.all isLowerHexDigit
  | _ => false

/-- A registered validator entry: its `validate` method. -/
structure ValidatorDef where
  validate : JSVal → Bool

def Ember.Validators.Blank : ValidatorDef := ⟨fun _ => true⟩

/-- The `Ember.Validators.String` entry (named apart to avoid shadowing
the Lean `String` type). -/
def ValidatorsString : ValidatorDef := ⟨StringValidator⟩
def Ember.Validators.Hexadecimal : ValidatorDef := ⟨RegExpValidatorValidate hexadecimalRegexTest⟩
def Ember.Validators.HexColor : ValidatorDef := ⟨RegExpValidatorValidate hexColorRegexTest⟩

/-- The validator registry: canonical name to validator entry.  In the
source this is the ambient mutable `Ember.Validators` namespace object;
here it is passed explicitly. -/
abbrev ValidatorRegistry := List (String × ValidatorDef)

/-- `Ember.Validators.validate(validator, value)`: canonicalize the name,
fall back to the Blank validator (always true) for unknown names, and run
the entry's `validate`. -/
def Ember.Validators.validate (reg : ValidatorRegistry) (name : String) (value : JSVal) : Bool :=
  match getEntry reg (classify name) with
  | some v => v.validate value
  | none => Ember.Validators.Blank.validate value

/-- A candidate definition object passed to `Validators.register`: its
`validate` property is `some` exactly when it is a function. -/
structure ValidatorSpecObj where
  validate : Option (JSVal → Bool)

/-- `Ember.Validators.register(name, definition)` (lines 219-223): throw
when the definition is falsy or its `validate` is not a function,
otherwise assign the entry at the canonical name unconditionally. -/
def Ember.Validators.register (reg : ValidatorRegistry) (name : String)
    (definition : Option ValidatorSpecObj) : Except String ValidatorRegistry :=
  match definition with
  | none => .error "New validator must at least implement a \"validate\" method"
  | some d =>
    match d.validate with
    | none => .error "New validator must at least implement a \"validate\" method"
    | some f => .ok (setEntry reg (classify name) ⟨f⟩)

/-! ### Formatters (src/form-controller.js lines 49-127) -/

/-- A registered formatter entry: its `format` method. -/
structure FormatterDef where
  format : JSVal → JSVal

def Ember.Formatters.Blank : FormatterDef := ⟨fun v => v⟩

/-- The `Ember.Formatters.String` entry, `value + ''` (named apart to
avoid shadowing the Lean `String` type). -/
def FormattersString : FormatterDef := ⟨fun v => .str (jsToString v)⟩

/-- ASCII upper-casing, `value.toUpperCase()` for the strings at play. -/
def jsToUpper (s : String) : String := String.mk (s.data.map Char.toUpper)

/-- The test of the regex `/^#/`. -/
def startsWithHash (s : String) : Bool :=
  match s.data with
  | c :: _ => c = '#'
  | [] => false

/-- HexColorFormatter.format (lines 87-93) on a string input: falsy
(empty) input maps to the empty string, a `#`-prefixed value passes
through, otherwise prefix `#` when the upper-cased value passes the
Hexadecimal validator, else pass through unchanged. -/
def HexColorFormatter.format (value : String) : String :=
  if value = "" then ""
  else if startsWithHash value then value
  else if Ember.Validators.Hexadecimal.validate (.str (jsToUpper value)) then "#" ++ value
  else value

/-- The formatter registry: canonical name to formatter entry. -/
abbrev FormatterRegistry := List (String × FormatterDef)

/-- `Ember.Formatters.format(formatter, value)`: canonicalize the name,
fall back to the Blank formatter (identity) for unknown names, and run
the entry's `format`. -/
def Ember.Formatters.format (reg : FormatterRegistry) (name : String) (value : JSVal) : JSVal :=
  match getEntry reg (classify name) with
  | some f => f.format value
  | none => Ember.Formatters.Blank.format value

/-- A candidate definition object passed to `Formatters.register`: its
`format` property is `some` exactly when it is a function. -/
structure FormatterSpecObj where
  format : Option (JSVal → JSVal)

/-- `Ember.Formatters.register(name, definition)` (lines 122-126): throw
when the definition is falsy or its `format` is not a function, otherwise
assign the entry at the canonical name unconditionally. -/
def Ember.Formatters.register (reg : FormatterRegistry) (name : String)
    (definition : Option FormatterSpecObj) : Except String FormatterRegistry :=
  match definition with
  | none => .error "New formatter must at least implement a \"format\" method"
  | some d =>
    match d.format with
    | none => .error "New formatter must at least implement a \"format\" method"
    | some f => .ok (setEntry reg (classify name) ⟨f⟩)

/-! ### Nested schemas (src/form-controller.js lines 325-367)

A schema is a JavaScript object whose own enumerable values are either
plain objects (`Ember.typeOf(value) === 'object'`, the `node` case) or
anything else (the `scalar` case).  Objects are modelled as ordered
association lists, the iteration order of `for key in obj`; property
assignment (`JObj.set`) overwrites in place or appends, as in JS. -/

mutual
inductive JTree where
  | scalar : JSVal → JTree
  | node : JObj → JTree
inductive JObj where
  | nil : JObj
  | cons : String → JTree → JObj → JObj
end

/-- Whether `Ember.typeOf(value) === 'object'` holds. -/
def JTree.isNode : JTree → Bool
  | .node _ => true
  | _ => false

/-- `_containsObj` (lines 361-367): does any own enumerable property
hold a plain object? -/
def JObj.containsObj : JObj → Bool
  | .nil => false
  | .cons _ v rest => v.isNode || rest.containsObj

/-- Property assignment `obj[k] = v`: overwrite the existing slot or
append a new property. -/
def JObj.set : JObj → String → JTree → JObj
  | .nil, k, v => .cons k v .nil
  | .cons a b rest, k, v =>
    if k = a then .cons a v rest else .cons a b (JObj.set rest k v)

/-- Property read `obj[k]`. -/
def JObj.get : JObj → String → Option JTree
  | .nil, _ => none
  | .cons a b rest, k => if k = a then some b else JObj.get rest k

/-- Whether the object has a property named `k`. -/
def JObj.hasKey : JObj → String → Bool
  | .nil, _ => false
  | .cons a _ rest, k => if k = a then true else JObj.hasKey rest k

/-- The JS object invariant: property names occur at most once. -/
def JObj.keysNodup : JObj → Bool
  | .nil => true
  | .cons a _ rest => !JObj.hasKey rest a && JObj.keysNodup rest

/-- The entries as a list, for stating membership facts. -/
def JObj.toList : JObj → List (String × JTree)
  | .nil => []
  | .cons a b rest => (a, b) :: JObj.toList rest

/-- The inner loop of `_flatten`: copy every entry of an already
flattened sub-object into `ret` under the dot-joined key
(`ret[key + '.' + sub] = flatObject[sub]`). -/
def prefixInto : JObj → String → JObj → JObj
  | .nil, _, ret => ret
  | .cons sub v rest, key, ret => prefixInto rest key (ret.set (key ++ "." ++ sub) v)

/-- `_flatten` (lines 341-357), with the result object `ret` threaded
explicitly: a plain-object value that itself contains a plain object is
recursed into and re-keyed, any other value is copied as a leaf. -/
def JObj.flattenGo : JObj → JObj → JObj
  | .nil, ret => ret
  | .cons key (.node l) rest, ret =>
    if l.containsObj then
      JObj.flattenGo rest (prefixInto (JObj.flattenGo l .nil) key ret)
    else
      JObj.flattenGo rest (ret.set key (.node l))
  | .cons key v rest, ret => JObj.flattenGo rest (ret.set key v)

/-- `_flatten(obj)` with a fresh `ret = {}`. -/
def JObj.flatten (o : JObj) : JObj := JObj.flattenGo o .nil

/-- A value the flattener would keep as a leaf. -/
def JTree.isFlat : JTree → Bool
  | .node l => !l.containsObj
  | _ => true

/-- Every value of the object is a leaf value. -/
def JObj.allFlat : JObj → Bool
  | .nil => true
  | .cons _ v rest => v.isFlat && JObj.allFlat rest

/-- The ternary `$.isPlainObject(field) ? field : {value: field}` of
`_formatFields`: the explicit per-field property object of a leaf. -/
def explicitProps : JTree → JObj
  | .node l => l
  | v => .cons "value" v .nil

/-- `_.extend(dest, src)`: assign every property of `src` onto `dest`
in iteration order, overwriting on key collision. -/
def JObj.extendWith : JObj → JObj → JObj
  | dest, .nil => dest
  | dest, .cons k v rest => JObj.extendWith (dest.set k v) rest

/-- The per-leaf body of `_formatFields`:
`_.extend($.isPlainObject(field) ? field : {value: field}, defaults)`. -/
def formatField (defaults : JObj) (field : JTree) : JTree :=
  .node ((explicitProps field).extendWith defaults)

/-- The loop `for key in fields: fields[key] = ...` rewriting each value
in place. -/
def mapValuesObj (f : JTree → JTree) : JObj → JObj
  | .nil => .nil
  | .cons k v rest => .cons k (f v) (mapValuesObj f rest)

/-- `_formatFields` (lines 328-337): flatten the schema, then merge each
leaf with the schema-level defaults. -/
def formatFieldsTable (fields defaults : JObj) : JObj :=
  mapValuesObj (formatField defaults) (JObj.flatten fields)

/-- Sequential property assignment of all entries of the second object
onto the first (`for k in o: ret[k] = o[k]`). -/
def JObj.setAll : JObj → JObj → JObj
  | ret, .nil => ret
  | ret, .cons k v rest => JObj.setAll (ret.set k v) rest

/-- Concatenation of the two entry lists. -/
def JObj.append : JObj → JObj → JObj
  | .nil, o => o
  | .cons a b rest, o => .cons a b (JObj.append rest o)

/-! ### The validation pass (src/form-controller.js lines 230-290)

A flattened field definition, as read by `validateFields`.  `type` and
`match` are `none` when absent (or falsy, which the `if` guards treat
alike); `required` and `notNull` are the truthiness of those properties;
`equal` is `some` exactly when the property is present
(`field.hasOwnProperty('equal')`), whatever its value. -/

structure FieldDef where
  type : Option String := none
  required : Bool := false
  notNull : Bool := false
  matchKey : Option String := none
  equal : Option JSVal := none
deriving DecidableEq, Repr

/-- `NULL_VALUES` (lines 240-241): the values that count as "does not
exist" rather than merely falsy. -/
def NULL_VALUES : List JSVal := [.str "", .null, .undefined]

/-- One produced error object: the flags `missing`, `invalid`,
`mismatch` are only ever set to `true`, so a `false` field models the
property being absent, and `Ember.keys(error).length` is nonzero exactly
when one of them is `true`. -/
structure ErrorEntry where
  key : String
  missing : Bool := false
  invalid : Bool := false
  mismatch : Bool := false
deriving DecidableEq, Repr

/-- `field.valid` after line 268: run the declared type's validator,
else stay `true`. -/
def fieldValid (reg : ValidatorRegistry) (source : String → JSVal)
    (key : String) (field : FieldDef) : Bool :=
  match field.type with
  | some t => Ember.Validators.validate reg t (source key)
  | none => true

/-- `field.missing` after lines 269-270: `required` with a null-sentinel
value, or `notNull` with a falsy value. -/
def fieldMissing (source : String → JSVal) (key : String) (field : FieldDef) : Bool :=
  (field.required && NULL_VALUES.contains (source key))
    || (field.notNull && !truthy (source key))

/-- `field.mismatch` after lines 271-272: a declared `match` whose
target path holds a different value, or a present `equal` whose literal
differs from the value. -/
def fieldMismatch (source : String → JSVal) (key : String) (field : FieldDef) : Bool :=
  (match field.matchKey with
   | some m => !(source key = source m)
   | none => false)
    || (match field.equal with
        | some e => !(source key = e)
        | none => false)

/-- The per-field body of `validateFields` (lines 262-284): compute the
three transient flags and assemble the error object, returning `none`
when no flag was set (the error carries no keys and is dropped). -/
def validateField (reg : ValidatorRegistry) (source : String → JSVal)
    (key : String) (field : FieldDef) : Option ErrorEntry :=
  let missing := fieldMissing source key field
  let valid := fieldValid reg source key field
  let mismatch := fieldMismatch source key field
  let invalid := (!missing && !valid) || mismatch
  if missing || invalid || mismatch then
    some { key := key, missing := missing, invalid := invalid, mismatch := mismatch }
  else none

/-- `validateFields` (lines 258-290) over a selected field table: the
first component is the returned `!errors`, the second the stored
`errors` property, `null` (`none`) when no error object was kept. -/
def validateFields (reg : ValidatorRegistry) (source : String → JSVal)
    (fields : List (String × FieldDef)) : Bool × Option (List ErrorEntry) :=
  match fields.filterMap fun kv => validateField reg source kv.1 kv.2 with
  | [] => (true, none)
  | e :: es => (false, some (e :: es))

/-! ### Shared lemmas -/

theorem getEntry_setEntry_self {α : Type} (l : List (String × α)) (k : String) (v : α) :
    getEntry (setEntry l k v) k = some v := by
  induction l with
  | nil => simp [setEntry, getEntry]
  | cons hd tl ih =>
    obtain ⟨a, w⟩ := hd
    by_cases hk : k = a
    · subst hk; simp [setEntry, getEntry]
    · simp [setEntry, getEntry, hk, ih]

theorem contains_of_mem_nullValues {v : JSVal} (h : v ∈ NULL_VALUES) :
    NULL_VALUES.contains v = true :=
  List.elem_iff.mpr h

/-! ### Claims about the validation pass -/

/-- C4: for every field with `required = true` whose value at its path is
one of the null sentinels, the validation pass produces an error entry
for the field and it carries `missing = true`, whatever type validator
the field declares and whatever that validator answers (the registry and
the declared type are universally quantified here). -/
theorem claim4_required_null_missing (reg : ValidatorRegistry) (source : String → JSVal)
    (key : String) (field : FieldDef)
    (hreq : field.required = true) (hv : source key ∈ NULL_VALUES) :
    ∃ e, validateField reg source key field = some e ∧ e.missing = true := by
  have hm : fieldMissing source key field = true := by
    simp [fieldMissing, hreq]
    exact Or.inl hv
  refine ⟨{ key := key, missing := true,
            invalid := fieldMismatch source key field,
            mismatch := fieldMismatch source key field }, ?_, rfl⟩
  simp [validateField, hm]

/-- Witness for C4: a required String-typed field whose value is the
empty string is reported missing. -/
theorem claim4_witness :
    (JSVal.str "" ∈ NULL_VALUES)
      ∧ ∃ e, validateField [("String", ValidatorsString)] (fun _ => JSVal.str "") "name"
          { type := some "String", required := true } = some e ∧ e.missing = true :=
  ⟨by decide,
   claim4_required_null_missing [("String", ValidatorsString)] (fun _ => JSVal.str "") "name"
     { type := some "String", required := true } rfl (by decide)⟩

/-- C10: when both a missing condition and a mismatch condition fire on
the same field, the single error entry carries `missing`, `invalid` and
`mismatch` all true: only type-validation failure is suppressed by
`missing`, while a mismatch forces `invalid` unconditionally. -/
theorem claim10_missing_and_mismatch (reg : ValidatorRegistry) (source : String → JSVal)
    (key : String) (field : FieldDef)
    (hmiss : fieldMissing source key field = true)
    (hmis : fieldMismatch source key field = true) :
    validateField reg source key field =
      some { key := key, missing := true, invalid := true, mismatch := true } := by
  simp [validateField, hmiss, hmis]

/-- Witness for C10: a required field with a present `equal` literal and
a null value is missing, invalid and mismatched at once. -/
theorem claim10_witness :
    (fieldMissing (fun _ => JSVal.null) "code" { required := true, equal := some (.str "x") } = true)
      ∧ (fieldMismatch (fun _ => JSVal.null) "code" { required := true, equal := some (.str "x") } = true)
      ∧ validateField [] (fun _ => JSVal.null) "code" { required := true, equal := some (.str "x") } =
          some { key := "code", missing := true, invalid := true, mismatch := true } :=
  ⟨by decide, by decide,
   claim10_missing_and_mismatch [] (fun _ => JSVal.null) "code"
     { required := true, equal := some (.str "x") } (by decide) (by decide)⟩

/-- C2 counterexample: a field with `required = false`, no `notNull`, an
unset (null) value and a type whose validator rejects the absent value
DOES produce an error entry, `{key, invalid: true}` — the claim that no
entry is produced is false on the code, because line 268 runs the type
validator unconditionally. -/
theorem claim2_counterexample :
    validateField [("String", ValidatorsString)] (fun _ => JSVal.null) "email"
        { type := some "String", required := false } =
      some { key := "email", invalid := true } := by decide

/-- C2 as amended: for a field with `required = false`, no `notNull`, no
`match` and no `equal`, holding an unset value, the pass produces no
entry exactly when the declared type's validator accepts the value;
when the validator rejects it, the entry `{key, invalid: true}` is
produced. -/
theorem claim2_amended (reg : ValidatorRegistry) (source : String → JSVal)
    (key : String) (field : FieldDef)
    (hreq : field.required = false) (hnn : field.notNull = false)
    (hm : field.matchKey = none) (he : field.equal = none)
    (hv : source key ∈ NULL_VALUES) :
    validateField reg source key field =
      if fieldValid reg source key field then none
      else some { key := key, invalid := true } := by
  have hmiss : fieldMissing source key field = false := by simp [fieldMissing, hreq, hnn]
  have hmm : fieldMismatch source key field = false := by simp [fieldMismatch, hm, he]
  by_cases hval : fieldValid reg source key field = true
  · simp [validateField, hmiss, hmm, hval]
  · rw [Bool.not_eq_true] at hval
    simp [validateField, hmiss, hmm, hval]

/-- Witness for C2: the optional empty String-typed field of the
counterexample instantiates the amended statement. -/
theorem claim2_witness :
    (JSVal.null ∈ NULL_VALUES)
      ∧ validateField [("String", ValidatorsString)] (fun _ => JSVal.null) "email"
          { type := some "String", required := false } =
        (if fieldValid [("String", ValidatorsString)] (fun _ => JSVal.null) "email"
              { type := some "String", required := false } then none
         else some { key := "email", invalid := true }) :=
  ⟨by decide,
   claim2_amended [("String", ValidatorsString)] (fun _ => JSVal.null) "email"
     { type := some "String", required := false } rfl rfl rfl rfl (by decide)⟩

/-- C8: the boolean result of `validateFields` is true exactly when no
error entry was produced, and the stored error collection is either
`none` (the null sentinel) or a non-empty list — never `some []`. -/
theorem claim8_ok_iff_no_errors (reg : ValidatorRegistry) (source : String → JSVal)
    (fields : List (String × FieldDef)) :
    ((validateFields reg source fields).1 = true ↔ (validateFields reg source fields).2 = none)
      ∧ (validateFields reg source fields).2 ≠ some [] := by
  rcases hfm : fields.filterMap (fun kv => validateField reg source kv.1 kv.2) with _ | ⟨e, es⟩ <;>
    simp [validateFields, hfm]

/-- Witness for C8 at a concrete failing table: one required field with
an undefined value yields `ok = false` and a non-empty error list. -/
theorem claim8_witness :
    ((validateFields [] (fun _ => JSVal.undefined) [("a", { required := true })]).1 = true
        ↔ (validateFields [] (fun _ => JSVal.undefined) [("a", { required := true })]).2 = none)
      ∧ (validateFields [] (fun _ => JSVal.undefined) [("a", { required := true })]).2 ≠ some [] :=
  claim8_ok_iff_no_errors [] (fun _ => JSVal.undefined) [("a", { required := true })]

/-- The password-confirmation field table of the specification's test:
`passwordConfirm` declares `match: 'password'`. -/
def c7Fields : List (String × FieldDef) :=
  [("password", {}), ("passwordConfirm", { matchKey := some "password" })]

/-- A data source holding `v1` at `password` and `v2` at `passwordConfirm`. -/
def c7Source (v1 v2 : JSVal) : String → JSVal :=
  fun k => if k = "password" then v1 else if k = "passwordConfirm" then v2 else .undefined

/-- C7: with unequal values at the two paths, `validateFields` returns
`ok = false` and exactly the entry
`{key: 'passwordConfirm', invalid: true, mismatch: true}`. -/
theorem claim7_match_mismatch (v1 v2 : JSVal) (h : v1 ≠ v2) :
    validateFields [] (c7Source v1 v2) c7Fields =
      (false, some [{ key := "passwordConfirm", invalid := true, mismatch := true }]) := by
  have h2 : ¬ v2 = v1 := fun hh => h hh.symm
  simp [validateFields, c7Fields, validateField, fieldValid, fieldMissing, fieldMismatch,
    c7Source, NULL_VALUES, h2]

/-- Witness for C7 with the concrete unequal strings `"a"` and `"b"`. -/
theorem claim7_witness :
    validateFields [] (c7Source (.str "a") (.str "b")) c7Fields =
      (false, some [{ key := "passwordConfirm", invalid := true, mismatch := true }]) :=
  claim7_match_mismatch (.str "a") (.str "b") (by decide)

/-- C9: formatting `"2572EB"` with the HexColor formatter yields
`"#2572EB"` (its Hexadecimal helper accepts only upper-case hex digits),
yet the HexColor validator rejects `"#2572EB"` (its pattern accepts only
lower-case hex digits): format-then-validate under the HexColor name is
not accepting for upper-case hex input. -/
theorem claim9_hexcolor_format_validate_disagree :
    HexColorFormatter.format "2572EB" = "#2572EB"
      ∧ Ember.Validators.HexColor.validate (.str "#2572EB") = false := by
  constructor <;> decide

/-- A formatter registry in which the canonical name `String` is bound
to the built-in String formatter. -/
def demoFormatters : FormatterRegistry := [("String", FormattersString)]

/-- A validator registry in which the canonical name `String` is bound
to the built-in String validator. -/
def demoValidators : ValidatorRegistry := [("String", ValidatorsString)]

/-- C3 counterexample: registering a formatter under the already-bound
name `string` (canonical form `String`) does NOT raise: it succeeds, and
afterwards the registry invokes the NEW definition, not the original one
— `register` (lines 122-126, 219-223) never checks for duplicates. -/
theorem claim3_counterexample :
    (Ember.Formatters.register demoFormatters "string"
        (some ⟨some fun _ => .str "replaced"⟩)).isOk = true
      ∧ (match Ember.Formatters.register demoFormatters "string"
            (some ⟨some fun _ => .str "replaced"⟩) with
         | .ok reg2 => Ember.Formatters.format reg2 "string" (.str "x")
         | .error _ => .null) = .str "replaced"
      ∧ Ember.Formatters.format demoFormatters "string" (.str "x") = .str "x" :=
  ⟨rfl, rfl, rfl⟩

/-- C3 as amended: `register` raises its registration error only for a
missing or callable-less definition; a name whose canonical form is
already bound is silently re-bound — registration succeeds and lookup
afterwards yields the new entry, for the Formatters and the Validators
registry alike. -/
theorem claim3_amended (freg : FormatterRegistry) (vreg : ValidatorRegistry) (name : String)
    (f : JSVal → JSVal) (p : JSVal → Bool)
    (hf : getEntry freg (classify name) ≠ none)
    (hv : getEntry vreg (classify name) ≠ none) :
    (∃ freg2, Ember.Formatters.register freg name (some ⟨some f⟩) = .ok freg2
        ∧ getEntry freg2 (classify name) = some ⟨f⟩)
      ∧ (∃ vreg2, Ember.Validators.register vreg name (some ⟨some p⟩) = .ok vreg2
        ∧ getEntry vreg2 (classify name) = some ⟨p⟩) :=
  ⟨⟨setEntry freg (classify name) ⟨f⟩, rfl, getEntry_setEntry_self ..⟩,
   ⟨setEntry vreg (classify name) ⟨p⟩, rfl, getEntry_setEntry_self ..⟩⟩

/-- Witness for C3 as amended, at the two demo registries where the
canonical form of `string` is already bound. -/
theorem claim3_witness :
    (getEntry demoFormatters (classify "string") ≠ none)
      ∧ (getEntry demoValidators (classify "string") ≠ none)
      ∧ ((∃ freg2, Ember.Formatters.register demoFormatters "string"
              (some ⟨some fun _ => .str "r"⟩) = .ok freg2
            ∧ getEntry freg2 (classify "string") = some ⟨fun _ => .str "r"⟩)
          ∧ (∃ vreg2, Ember.Validators.register demoValidators "string"
              (some ⟨some fun _ => false⟩) = .ok vreg2
            ∧ getEntry vreg2 (classify "string") = some ⟨fun _ => false⟩)) :=
  have hc : classify "string" = "String" := by decide
  ⟨by simp [demoFormatters, getEntry, hc], by simp [demoValidators, getEntry, hc],
   claim3_amended demoFormatters demoValidators "string" (fun _ => .str "r") (fun _ => false)
     (by simp [demoFormatters, getEntry, hc]) (by simp [demoValidators, getEntry, hc])⟩

/-! ### Lemmas about objects and the flattener -/

theorem JObj.get_set : ∀ (o : JObj) (k : String) (v : JTree) (p : String),
    (o.set k v).get p = if p = k then some v else o.get p
  | .nil, k, v, p => by simp [JObj.set, JObj.get]
  | .cons a b rest, k, v, p => by
    by_cases hk : k = a
    · subst hk
      by_cases hp : p = k <;> simp [JObj.set, JObj.get, hp]
    · have ih := JObj.get_set rest k v p
      by_cases hp : p = a
      · subst hp
        have hpk : ¬ p = k := fun h => hk h.symm
        simp [JObj.set, JObj.get, hk, hpk]
      · simp [JObj.set, JObj.get, hk, hp, ih]

theorem JObj.hasKey_set : ∀ (o : JObj) (k : String) (v : JTree) (p : String),
    (o.set k v).hasKey p = if p = k then true else o.hasKey p
  | .nil, k, v, p => by simp [JObj.set, JObj.hasKey]
  | .cons a b rest, k, v, p => by
    by_cases hk : k = a
    · subst hk
      by_cases hp : p = k <;> simp [JObj.set, JObj.hasKey, hp]
    · have ih := JObj.hasKey_set rest k v p
      by_cases hp : p = a
      · subst hp
        have hpk : ¬ p = k := fun h => hk h.symm
        simp [JObj.set, JObj.hasKey, hk, hpk]
      · simp [JObj.set, JObj.hasKey, hk, hp, ih]

theorem JObj.keysNodup_set : ∀ (o : JObj) (k : String) (v : JTree),
    o.keysNodup = true → (o.set k v).keysNodup = true
  | .nil, k, v, _ => by simp [JObj.set, JObj.keysNodup, JObj.hasKey]
  | .cons a b rest, k, v, h => by
    rw [show JObj.keysNodup (.cons a b rest) = (!rest.hasKey a && rest.keysNodup) from rfl] at h
    simp only [Bool.and_eq_true, Bool.not_eq_true'] at h
    by_cases hk : k = a
    · subst hk
      simp [JObj.set, JObj.keysNodup, h.1, h.2]
    · have ih := JObj.keysNodup_set rest k v h.2
      simp [JObj.set, hk, JObj.keysNodup, ih, JObj.hasKey_set, hk, h.1]
      intro hak
      exact absurd hak.symm hk

theorem JObj.allFlat_set : ∀ (o : JObj) (k : String) (v : JTree),
    o.allFlat = true → v.isFlat = true → (o.set k v).allFlat = true
  | .nil, k, v, _, hv => by simp [JObj.set, JObj.allFlat, hv]
  | .cons a b rest, k, v, h, hv => by
    rw [show JObj.allFlat (.cons a b rest) = (b.isFlat && rest.allFlat) from rfl] at h
    simp only [Bool.and_eq_true] at h
    by_cases hk : k = a
    · subst hk; simp [JObj.set, JObj.allFlat, hv, h.2]
    · simp [JObj.set, hk, JObj.allFlat, h.1, JObj.allFlat_set rest k v h.2 hv]

theorem allFlat_prefixInto : ∀ (fo : JObj) (key : String) (ret : JObj),
    fo.allFlat = true → ret.allFlat = true → (prefixInto fo key ret).allFlat = true
  | .nil, _, ret, _, hr => hr
  | .cons sub v rest, key, ret, hf, hr => by
    rw [show JObj.allFlat (.cons sub v rest) = (v.isFlat && rest.allFlat) from rfl] at hf
    simp only [Bool.and_eq_true] at hf
    exact allFlat_prefixInto rest key _ hf.2 (JObj.allFlat_set ret _ v hr hf.1)

theorem keysNodup_prefixInto : ∀ (fo : JObj) (key : String) (ret : JObj),
    ret.keysNodup = true → (prefixInto fo key ret).keysNodup = true
  | .nil, _, ret, hr => hr
  | .cons sub v rest, key, ret, hr =>
    keysNodup_prefixInto rest key _ (JObj.keysNodup_set ret _ v hr)

theorem allFlat_flattenGo : ∀ (o ret : JObj),
    ret.allFlat = true → (JObj.flattenGo o ret).allFlat = true
  | .nil, ret, h => h
  | .cons key (.node l) rest, ret, h => by
    by_cases hc : l.containsObj = true
    · have hinner := allFlat_flattenGo l .nil rfl
      have hacc := allFlat_prefixInto (JObj.flattenGo l .nil) key ret hinner h
      have hrec := allFlat_flattenGo rest _ hacc
      simpa [JObj.flattenGo, hc] using hrec
    · have hflat : (JTree.node l).isFlat = true := by
        simp [JTree.isFlat, Bool.not_eq_true] at hc ⊢
        exact hc
      have hrec := allFlat_flattenGo rest (ret.set key (.node l))
        (JObj.allFlat_set ret key _ h hflat)
      simpa [JObj.flattenGo, hc] using hrec
  | .cons key (.scalar s) rest, ret, h => by
    have hrec := allFlat_flattenGo rest (ret.set key (.scalar s))
      (JObj.allFlat_set ret key _ h rfl)
    simpa [JObj.flattenGo] using hrec

theorem keysNodup_flattenGo : ∀ (o ret : JObj),
    ret.keysNodup = true → (JObj.flattenGo o ret).keysNodup = true
  | .nil, ret, h => h
  | .cons key (.node l) rest, ret, h => by
    by_cases hc : l.containsObj = true
    · have hacc := keysNodup_prefixInto (JObj.flattenGo l .nil) key ret h
      have hrec := keysNodup_flattenGo rest _ hacc
      simpa [JObj.flattenGo, hc] using hrec
    · have hrec := keysNodup_flattenGo rest (ret.set key (.node l))
        (JObj.keysNodup_set ret key _ h)
      simpa [JObj.flattenGo, hc] using hrec
  | .cons key (.scalar s) rest, ret, h => by
    have hrec := keysNodup_flattenGo rest (ret.set key (.scalar s))
      (JObj.keysNodup_set ret key _ h)
    simpa [JObj.flattenGo] using hrec

theorem flattenGo_of_allFlat : ∀ (o ret : JObj),
    o.allFlat = true → JObj.flattenGo o ret = JObj.setAll ret o
  | .nil, ret, _ => rfl
  | .cons key (.node l) rest, ret, h => by
    rw [show JObj.allFlat (.cons key (.node l) rest)
          = ((JTree.node l).isFlat && rest.allFlat) from rfl] at h
    simp only [JTree.isFlat, Bool.and_eq_true, Bool.not_eq_true'] at h
    simp [JObj.flattenGo, h.1, JObj.setAll,
      flattenGo_of_allFlat rest (ret.set key (.node l)) h.2]
  | .cons key (.scalar s) rest, ret, h => by
    rw [show JObj.allFlat (.cons key (.scalar s) rest)
          = ((JTree.scalar s).isFlat && rest.allFlat) from rfl] at h
    simp only [JTree.isFlat, Bool.true_and] at h
    simp [JObj.flattenGo, JObj.setAll,
      flattenGo_of_allFlat rest (ret.set key (.scalar s)) h]

theorem JObj.append_assoc : ∀ (a b c : JObj),
    (a.append b).append c = a.append (b.append c)
  | .nil, _, _ => rfl
  | .cons x y rest, b, c => by
    simp [JObj.append, JObj.append_assoc rest b c]

theorem JObj.hasKey_append : ∀ (a b : JObj) (k : String),
    (a.append b).hasKey k = (a.hasKey k || b.hasKey k)
  | .nil, b, k => rfl
  | .cons x y rest, b, k => by
    by_cases hk : k = x <;> simp [JObj.append, JObj.hasKey, hk, JObj.hasKey_append rest b k]

theorem JObj.set_eq_append : ∀ (o : JObj) (k : String) (v : JTree),
    o.hasKey k = false → o.set k v = o.append (.cons k v .nil)
  | .nil, k, v, _ => rfl
  | .cons a b rest, k, v, h => by
    by_cases hk : k = a
    · subst hk; simp [JObj.hasKey] at h
    · simp [JObj.hasKey, hk] at h
      simp [JObj.set, hk, JObj.append, JObj.set_eq_append rest k v h]

theorem JObj.append_nil : ∀ (o : JObj), o.append .nil = o
  | .nil => rfl
  | .cons a b rest => by simp [JObj.append, JObj.append_nil rest]

theorem setAll_of_disjoint : ∀ (o ret : JObj), o.keysNodup = true →
    (∀ k, o.hasKey k = true → ret.hasKey k = false) →
    JObj.setAll ret o = ret.append o
  | .nil, ret, _, _ => (JObj.append_nil ret).symm
  | .cons k v rest, ret, h, hdisj => by
    rw [show JObj.keysNodup (.cons k v rest) = (!rest.hasKey k && rest.keysNodup) from rfl] at h
    simp only [Bool.and_eq_true, Bool.not_eq_true'] at h
    have hk_ret : ret.hasKey k = false := hdisj k (by simp [JObj.hasKey])
    have hset : ret.set k v = ret.append (.cons k v .nil) := JObj.set_eq_append ret k v hk_ret
    have hdisj2 : ∀ p, rest.hasKey p = true → (ret.append (.cons k v .nil)).hasKey p = false := by
      intro p hp
      have hpk : ¬ p = k := fun hh => by rw [hh] at hp; rw [hp] at h; exact absurd h.1 (by simp)
      rw [JObj.hasKey_append]
      have h1 : ret.hasKey p = false := hdisj p (by simp [JObj.hasKey, hpk, hp])
      simp [h1, JObj.hasKey, hpk]
    calc JObj.setAll ret (.cons k v rest)
        = JObj.setAll (ret.set k v) rest := rfl
      _ = JObj.setAll (ret.append (.cons k v .nil)) rest := by rw [hset]
      _ = (ret.append (.cons k v .nil)).append rest :=
          setAll_of_disjoint rest _ h.2 hdisj2
      _ = ret.append (.cons k v rest) := by
          rw [JObj.append_assoc]; rfl

/-- C5: the flattener is idempotent — `_flatten(_flatten(obj))` equals
`_flatten(obj)` for every schema object — and on an already-flat schema
(unique keys, no container value at any leaf) `_flatten` is the
identity. -/
theorem claim5_flatten_idempotent (o : JObj) :
    JObj.flatten (JObj.flatten o) = JObj.flatten o
      ∧ (o.keysNodup = true → o.allFlat = true → JObj.flatten o = o) := by
  have base : ∀ p : JObj, p.keysNodup = true → p.allFlat = true → JObj.flatten p = p := by
    intro p hn hf
    have h1 : JObj.flatten p = JObj.setAll .nil p := flattenGo_of_allFlat p .nil hf
    have h2 : JObj.setAll .nil p = JObj.append .nil p :=
      setAll_of_disjoint p .nil hn (fun _ _ => rfl)
    rw [h1, h2]; rfl
  exact ⟨base (JObj.flatten o) (keysNodup_flattenGo o .nil rfl) (allFlat_flattenGo o .nil rfl),
    base o⟩

/-- Witness for C5 on a concrete already-flat schema. -/
theorem claim5_witness :
    ((JObj.cons "a" (.scalar (.str "x")) .nil).keysNodup = true)
      ∧ ((JObj.cons "a" (.scalar (.str "x")) .nil).allFlat = true)
      ∧ JObj.flatten (JObj.cons "a" (.scalar (.str "x")) .nil)
          = JObj.cons "a" (.scalar (.str "x")) .nil :=
  ⟨rfl, rfl, (claim5_flatten_idempotent (JObj.cons "a" (.scalar (.str "x")) .nil)).2 rfl rfl⟩

theorem containsObj_iff_aux : ∀ o : JObj,
    o.containsObj = true ↔ ∃ p ∈ o.toList, p.2.isNode = true
  | .nil => by simp [JObj.containsObj, JObj.toList]
  | .cons a b rest => by
    rw [show JObj.containsObj (.cons a b rest) = (b.isNode || rest.containsObj) from rfl]
    rw [show JObj.toList (.cons a b rest) = (a, b) :: rest.toList from rfl]
    simp [Bool.or_eq_true, containsObj_iff_aux rest]

/-- The leaf definition `{type: 'String'}`. -/
def leafStringDef : JTree := .node (.cons "type" (.scalar (.str "String")) .nil)

/-- The schema `{a: {type: 'String'}}`. -/
def exSchemaLeaf : JObj := .cons "a" leafStringDef .nil

/-- The schema `{a: {b: {type: 'String'}, c: {type: 'String'}}}`. -/
def exSchemaNested : JObj :=
  .cons "a" (.node (.cons "b" leafStringDef (.cons "c" leafStringDef .nil))) .nil

/-- C6: `_containsObj` holds exactly when some own enumerable property
is itself a mapping, and accordingly `{a: {type: 'String'}}` flattens to
the single field key `a` while `{a: {b: {type: 'String'}, c: {type:
'String'}}}` flattens to exactly the keys `a.b` and `a.c`. -/
theorem claim6_leaf_vs_container :
    (∀ o : JObj, o.containsObj = true ↔ ∃ p ∈ o.toList, p.2.isNode = true)
      ∧ JObj.flatten exSchemaLeaf = exSchemaLeaf
      ∧ JObj.flatten exSchemaNested =
          .cons "a.b" leafStringDef (.cons "a.c" leafStringDef .nil) :=
  ⟨containsObj_iff_aux, rfl, rfl⟩

/-- Witness for C6 at the concrete container schema value. -/
theorem claim6_witness :
    (JObj.cons "b" leafStringDef (.cons "c" leafStringDef .nil)).containsObj = true ↔
      ∃ p ∈ (JObj.cons "b" leafStringDef (.cons "c" leafStringDef .nil)).toList,
        p.2.isNode = true :=
  claim6_leaf_vs_container.1 (JObj.cons "b" leafStringDef (.cons "c" leafStringDef .nil))

theorem JObj.get_eq_none_of_hasKey_false : ∀ (o : JObj) (k : String),
    o.hasKey k = false → o.get k = none
  | .nil, _, _ => rfl
  | .cons a b rest, k, h => by
    by_cases hk : k = a
    · subst hk; simp [JObj.hasKey] at h
    · simp [JObj.hasKey, hk] at h
      simp [JObj.get, hk, JObj.get_eq_none_of_hasKey_false rest k h]

theorem JObj.get_extendWith : ∀ (src dest : JObj) (p : String), src.keysNodup = true →
    (dest.extendWith src).get p =
      (match src.get p with
       | some v => some v
       | none => dest.get p)
  | .nil, dest, p, _ => by simp [JObj.extendWith, JObj.get]
  | .cons k v rest, dest, p, h => by
    rw [show JObj.keysNodup (.cons k v rest) = (!rest.hasKey k && rest.keysNodup) from rfl] at h
    simp only [Bool.and_eq_true, Bool.not_eq_true'] at h
    rw [show JObj.extendWith dest (.cons k v rest) = JObj.extendWith (dest.set k v) rest from rfl]
    rw [JObj.get_extendWith rest (dest.set k v) p h.2]
    by_cases hp : p = k
    · subst hp
      rw [JObj.get_eq_none_of_hasKey_false rest p h.1]
      simp [JObj.get_set, JObj.get]
    · cases hr : rest.get p <;> simp [JObj.get, hp, hr, JObj.get_set]

theorem JObj.get_mapValues (f : JTree → JTree) : ∀ (o : JObj) (k : String),
    (mapValuesObj f o).get k = (o.get k).map f
  | .nil, _ => rfl
  | .cons a b rest, k => by
    by_cases hk : k = a <;> simp [mapValuesObj, JObj.get, hk, JObj.get_mapValues f rest k]

/-- Read `o[key][prop]` when `o[key]` is a plain object. -/
def JObj.getIn (o : JObj) (key prop : String) : Option JTree :=
  match o.get key with
  | some (.node l) => l.get prop
  | _ => none

/-- The schema `{email: {required: false}}`. -/
def exC1Fields : JObj :=
  .cons "email" (.node (.cons "required" (.scalar (.bool false)) .nil)) .nil

/-- The schema-level defaults `{required: true}`. -/
def exC1Defaults : JObj := .cons "required" (.scalar (.bool true)) .nil

/-- C1 counterexample: with the explicit per-field property
`required: false` and the default `required: true`, the flattened table
built by `_formatFields` keeps the DEFAULT's value `true`, not the
explicit `false` — `_.extend(field, defaults)` lets defaults overwrite
explicit per-field properties, the opposite of the claimed precedence. -/
theorem claim1_counterexample :
    (formatFieldsTable exC1Fields exC1Defaults).getIn "email" "required"
        = some (.scalar (.bool true))
      ∧ exC1Fields.getIn "email" "required" = some (.scalar (.bool false))
      ∧ JSVal.bool true ≠ JSVal.bool false :=
  ⟨rfl, rfl, by decide⟩

/-- C1 as amended: every leaf of the table built by `_formatFields`
equals the merge of its explicit per-field properties with the
schema-level defaults, where for every key present in both it is the
DEFAULT's value (not the explicit per-field one) that is kept. -/
theorem claim1_amended (fields defaults : JObj) (hd : defaults.keysNodup = true)
    (key : String) (fd : JObj)
    (h : (formatFieldsTable fields defaults).get key = some (.node fd)) :
    ∃ leaf, (JObj.flatten fields).get key = some leaf
      ∧ ∀ p, fd.get p =
          (match defaults.get p with
           | some dv => some dv
           | none => (explicitProps leaf).get p) := by
  rw [formatFieldsTable, JObj.get_mapValues] at h
  cases hf : (JObj.flatten fields).get key with
  | none => rw [hf] at h; simp at h
  | some leaf =>
    rw [hf] at h
    have hfd : fd = (explicitProps leaf).extendWith defaults := by
      have h2 : formatField defaults leaf = .node fd := by
        simpa using h
      simpa [formatField] using h2.symm
    refine ⟨leaf, rfl, ?_⟩
    intro p
    rw [hfd]
    exact JObj.get_extendWith defaults (explicitProps leaf) p hd

/-- Witness for C1 as amended, at the counterexample schema: the leaf
stored for `email` satisfies the defaults-take-precedence merge. -/
theorem claim1_witness :
    (exC1Defaults.keysNodup = true)
      ∧ ∃ leaf, (JObj.flatten exC1Fields).get "email" = some leaf
        ∧ ∀ p, (JObj.cons "required" (.scalar (.bool true)) .nil).get p =
            (match exC1Defaults.get p with
             | some dv => some dv
             | none => (explicitProps leaf).get p) :=
  ⟨rfl, claim1_amended exC1Fields exC1Defaults rfl "email"
    (JObj.cons "required" (.scalar (.bool true)) .nil) rfl⟩
